import Mathlib

/-!
A shallow embedding of the goa-jwtauth middleware core: the dynamically
typed claims bag with its coercion accessors (claims.go), the named
keystore with trust management (new.go), the default scope-based
authorization evaluator (default_authorization.go), and the token
extraction and issuer identification steps of the verification pipeline
(internals.go, new.go).  Go interface values are modelled by a closed
variant type; Go maps by association lists; machine integers by Int/Nat;
floating-point claim values by rationals carrying their printed form.
-/

/-- Go `string`, as used throughout the package. -/
abbrev GoString := String

/-- Go `bool`. -/
abbrev GoBool := Bool

/-- Go `int64`; jwtauth never relies on wrap-around, so a plain Int. -/
abbrev GoInt64 := Int

/-- The dynamic (`interface\x7b\x7d`) values that can appear in a claims bag.
`vNull` is a nil interface value; `vStringer` is any value implementing
`fmt.Stringer`, carried with the string its `String()` method returns;
floats carry their rational value plus their `%v` rendering; `vOther` is
any other type, carried with its `%v` rendering. -/
inductive GoValue where
  | vNull
  | vBool (b : Bool)
  | vInt (n : Int)
  | vInt64 (n : Int)
  | vInt32 (n : Int)
  | vUInt64 (n : Nat)
  | vUInt32 (n : Nat)
  | vFloat64 (q : Rat) (rendered : GoString)
  | vFloat32 (q : Rat) (rendered : GoString)
  | vStr (s : GoString)
  | vStringer (s : GoString)
  | vStrList (xs : List GoString)
  | vList (xs : List GoValue)
  | vOther (rendered : GoString)

/-- Space-separated join, as in Go fmt %v rendering of a slice body. -/
def joinSpace : List GoString → GoString
  | [] => ""
  | [s] => s
  | s :: rest => s ++ " " ++ joinSpace rest

mutual

/-- fmt.Sprintf("%v", v) for a non-nil value of our closed universe. -/
def goFormat : GoValue → GoString
  | .vNull => "<nil>"
  | .vBool b => if b then "true" else "false"
  | .vInt n => toString n
  | .vInt64 n => toString n
  | .vInt32 n => toString n
  | .vUInt64 n => toString n
  | .vUInt32 n => toString n
  | .vFloat64 _ r => r
  | .vFloat32 _ r => r
  | .vStr s => s
  | .vStringer s => s
  | .vStrList xs => "[" ++ joinSpace xs ++ "]"
  | .vList xs => "[" ++ joinSpace (goFormatList xs) ++ "]"
  | .vOther r => r

/-- %v rendering of each element of a []interface\x7b\x7d. -/
def goFormatList : List GoValue → List GoString
  | [] => []
  | v :: rest => goFormat v :: goFormatList rest

end

/-- claims.go stringify: "" for nil, the string itself, a Stringer's
String(), or generic %v formatting.  The argument is the result of a map
lookup, so `none` is a nil interface value. -/
def stringify : Option GoValue → GoString
  | none => ""
  | some .vNull => ""
  | some (.vStr s) => s
  | some (.vStringer s) => s
  | some v => goFormat v

/-- Lookup in a Go map modelled as an association list; `none` is the
zero interface value a Go map returns for an absent key. -/
def mapLookup : List (GoString × α) → GoString → Option α
  | [], _ => none
  | (k, v) :: rest, name => if k = name then some v else mapLookup rest name

/-- Go map assignment `m[k] = v`: replace an existing entry or append. -/
def mapInsert : List (GoString × α) → GoString → α → List (GoString × α)
  | [], k, v => [(k, v)]
  | (k', v') :: rest, k, v =>
      if k' = k then (k, v) :: rest else (k', v') :: mapInsert rest k v

/-- Go `delete(m, k)`. -/
def mapDelete : List (GoString × α) → GoString → List (GoString × α)
  | [], _ => []
  | (k', v') :: rest, k =>
      if k' = k then mapDelete rest k else (k', v') :: mapDelete rest k

/-- Claims is a collection of claims extracted from a JWT (claims.go). -/
abbrev Claims := List (GoString × GoValue)

/-- Claims.String from claims.go. -/
def Claims.String (c : Claims) (name : GoString) : GoString :=
  stringify (mapLookup c name)

/-- Claims.Strings from claims.go: []string as-is, a string as a
singleton, a []interface\x7b\x7d converted elementwise by stringify,
anything else as a singleton of its stringification; nil for absent. -/
def Claims.Strings (c : Claims) (name : GoString) : List GoString :=
  match mapLookup c name with
  | none => []
  | some (.vStrList xs) => xs
  | some (.vStr s) => [s]
  | some (.vList xs) => xs.map (fun v => stringify (some v))
  | some v => [stringify (some v)]

/-- The digit value of a decimal character. -/
def digitVal (c : Char) : Nat := c.toNat - '0'.toNat

/-- Accumulate a base-10 digit string into a Nat. -/
def digitsToNat (ds : List Char) : Nat :=
  ds.foldl (fun acc c => acc * 10 + digitVal c) 0

/-- strconv.ParseInt(s, 10, 64): optional sign, one or more decimal
digits, result range-checked against int64; `none` is a parse error. -/
def parseInt64 (s : GoString) : Option GoInt64 :=
  let signAndDigits : Bool × List Char :=
    match s.data with
    | '+' :: rest => (false, rest)
    | '-' :: rest => (true, rest)
    | l => (false, l)
  let neg := signAndDigits.1
  let ds := signAndDigits.2
  if ds.isEmpty then none
  else if ds.all Char.isDigit then
    let v : Int := if neg then -(digitsToNat ds : Int) else (digitsToNat ds : Int)
    if -(2 ^ 63) ≤ v ∧ v ≤ 2 ^ 63 - 1 then some v else none
  else none

/-- `[Tt]` then optional `r`, optional `u`, then a mandatory final `e`:
the left alternative of the trueBool regular expression in claims.go. -/
def stripOptChar (c : Char) (l : List Char) : List Char :=
  match l with
  | [] => []
  | c' :: rest => if c' = c then rest else c' :: rest

/-- A nonzero decimal digit. -/
def isNonzeroDigit (c : Char) : Bool :=
  decide ('1'.toNat ≤ c.toNat) && decide (c.toNat ≤ '9'.toNat)

/-- trueBool.MatchString s for the anchored claims.go pattern
composed of a T/t word alternative and a multi-digit number alternative. -/
def trueBoolMatch (s : GoString) : Bool :=
  match s.data with
  | [] => false
  | c :: rest =>
      if c = 'T' ∨ c = 't' then
        stripOptChar 'u' (stripOptChar 'r' rest) == ['e']
      else if isNonzeroDigit c then
        !rest.isEmpty && rest.all Char.isDigit
      else false

/-- Claims.Bool from claims.go.  The Go type switch lists int64, int32,
uint64, uint32 and float64 as cases with empty bodies, and Go cases do
not fall through, so only the float32 case reaches the nonzero test;
every other numeric type drops out of the switch and returns false. -/
def Claims.Bool (c : Claims) (name : GoString) : GoBool :=
  match mapLookup c name with
  | some (.vBool b) => b
  | some (.vFloat32 q _) => decide (q ≠ 0)
  | some (.vStr s) => trueBoolMatch s
  | _ => false

/-- Truncation toward zero of a rational, as Go int64(f) conversion. -/
def ratTrunc (q : Rat) : Int := Int.tdiv q.num (Int.ofNat q.den)

/-- Claims.Int from claims.go.  As with Bool, the int64, int32, uint64,
uint32 and float64 cases have empty bodies and do not fall through, so
only a float32 value is truncated; a string is parsed base 10 with 0 on
parse failure; everything else returns 0. -/
def Claims.Int (c : Claims) (name : GoString) : GoInt64 :=
  match mapLookup c name with
  | some (.vFloat32 q _) => ratTrunc q
  | some (.vStr s) => (parseInt64 s).getD 0
  | _ => 0

/-- Claims.Time from claims.go: time.Unix(Int(name), 0), modelled by its
Unix epoch second count. -/
def Claims.Time (c : Claims) (name : GoString) : GoInt64 :=
  Claims.Int c name

/-- Claims.Issuer from claims.go. -/
def Claims.Issuer (c : Claims) : GoString := Claims.String c "iss"

/-- Claims.Subject from claims.go. -/
def Claims.Subject (c : Claims) : GoString := Claims.String c "sub"

/-- Claims.IssuedAt from claims.go. -/
def Claims.IssuedAt (c : Claims) : GoInt64 := Claims.Time c "iat"

/-- Claims.NotBefore from claims.go, which returns c.Time("iat"). -/
def Claims.NotBefore (c : Claims) : GoInt64 := Claims.Time c "iat"

/-- Claims.ExpiresAt from claims.go, which returns c.Time("iat"). -/
def Claims.ExpiresAt (c : Claims) : GoInt64 := Claims.Time c "iat"

/-- crypto/rsa PublicKey: modulus and public exponent. -/
structure RSAPublicKey where
  n : Nat
  e : Int
  deriving DecidableEq

/-- crypto/rsa PrivateKey: its embedded public key and private exponent. -/
structure RSAPrivateKey where
  publicKey : RSAPublicKey
  d : Nat
  deriving DecidableEq

/-- crypto/ecdsa PublicKey: curve (by name) and point coordinates. -/
structure ECDSAPublicKey where
  curve : GoString
  x : Int
  y : Int
  deriving DecidableEq

/-- crypto/ecdsa PrivateKey: its embedded public key and secret scalar. -/
structure ECDSAPrivateKey where
  publicKey : ECDSAPublicKey
  d : Nat
  deriving DecidableEq

/-- The dynamic `Key` argument accepted by Trust in new.go: []byte,
string, RSA/ECDSA public or private keys, or any other type.
reflect.DeepEqual on two such interface values is false across distinct
dynamic types and structural within one, which is exactly the derived
decidable equality. -/
inductive KeyArg where
  | bytes (b : List Nat)
  | str (s : GoString)
  | rsaPub (k : RSAPublicKey)
  | rsaPriv (k : RSAPrivateKey)
  | ecdsaPub (k : ECDSAPublicKey)
  | ecdsaPriv (k : ECDSAPrivateKey)
  | otherKey (typ : GoString)
  deriving DecidableEq

/-- Go []byte(s): the bytes of a string, modelled per rune (the model
only ever compares these for equality, which UTF-8 encoding preserves). -/
def goBytes (s : GoString) : List Nat := s.data.map Char.toNat

/-- The convenience switch in Trust (new.go): a value implementing the
privateKey interface becomes its Public() key, a string becomes bytes,
everything else passes through. -/
def normalizeKey : KeyArg → KeyArg
  | .rsaPriv k => .rsaPub k.publicKey
  | .ecdsaPriv k => .ecdsaPub k.publicKey
  | .str s => .bytes (goBytes s)
  | k => k

/-- The storage switch in Trust (new.go): only *rsa.PublicKey,
*ecdsa.PublicKey and []byte are stored. -/
def isVerificationKey : KeyArg → Bool
  | .rsaPub _ => true
  | .ecdsaPub _ => true
  | .bytes _ => true
  | _ => false

/-- NamedKeystore from new.go: an issuer-to-key map whose zero value
(nil map, modelled as the empty list) is immediately usable. -/
structure NamedKeystore where
  keys : List (GoString × KeyArg)
  deriving DecidableEq

/-- The store step of Trust: normalize the key, then keep it only when
the second type switch classifies it, else an unsupported-type error. -/
def trustStore (nk : NamedKeystore) (issuer : GoString) (key : KeyArg) :
    Except GoString NamedKeystore :=
  if isVerificationKey (normalizeKey key) then
    .ok ⟨mapInsert nk.keys issuer (normalizeKey key)⟩
  else .error "Unsupported key type"

/-- NamedKeystore.Trust from new.go: reject when an entry exists that is
not reflect.DeepEqual to the raw argument, otherwise normalize and store. -/
def NamedKeystore.Trust (nk : NamedKeystore) (issuer : GoString) (key : KeyArg) :
    Except GoString NamedKeystore :=
  match mapLookup nk.keys issuer with
  | some old =>
      if old = key then trustStore nk issuer key
      else .error "Already added a key for issuer; call RemoveKey first"
  | none => trustStore nk issuer key

/-- NamedKeystore.RevokeTrust from new.go: delete the issuer's entry. -/
def NamedKeystore.RevokeTrust (nk : NamedKeystore) (issuer : GoString) : NamedKeystore :=
  ⟨mapDelete nk.keys issuer⟩

/-- NamedKeystore.Get from new.go: the stored key, or none. -/
def NamedKeystore.Get (nk : NamedKeystore) (issuer : GoString) : Option KeyArg :=
  mapLookup nk.keys issuer

/-- Every keystore state reachable from the zero value by Trust and
RevokeTrust calls (a Trust that returns an error leaves the state as it
was, so only successful Trust calls introduce new states). -/
inductive Reachable : NamedKeystore → Prop where
  | zero : Reachable ⟨[]⟩
  | trustOk {nk nk2 : NamedKeystore} {i : GoString} {k : KeyArg} :
      Reachable nk → NamedKeystore.Trust nk i k = .ok nk2 → Reachable nk2
  | revoke {nk : NamedKeystore} {i : GoString} :
      Reachable nk → Reachable (NamedKeystore.RevokeTrust nk i)

/-- The verification-key invariant of a keystore state: every stored
entry is a byte secret, an RSA public key, or an ECDSA public key. -/
def KeystoreInv (nk : NamedKeystore) : Prop :=
  ∀ p ∈ nk.keys, isVerificationKey p.2 = true

/-- The claims bag of the C1 scenario: distinct textual epoch values
under the three standard time-claim names. -/
def timeBagExample : Claims :=
  [("iss", .vStr "alice"), ("sub", .vStr "bob"),
   ("iat", .vStr "0"), ("nbf", .vStr "5"), ("exp", .vStr "100")]

/-- The error taxonomy of option.go restricted to what the modelled
pipeline produces, with the structured context each call site attaches. -/
inductive PipelineError where
  | unsupported (msg : GoString) (detail : GoString)
  | invalidToken (msg : GoString) (detail : GoString)
  | authorizationFailed (msg : GoString) (required : List GoString)
  deriving DecidableEq

/-- ScopesClaim from default_authorization.go. -/
def ScopesClaim : GoString := "scopes"

/-- The required-scopes loop of DefaultAuthorization: the first required
scope not held fails with the full required list in the error. -/
def checkScopes : List GoString → List GoString → List GoString → Option PipelineError
  | [], _, _ => none
  | r :: rest, held, allReqd =>
      if held.any (fun h => h == r) then checkScopes rest held allReqd
      else some (.authorizationFailed "missing scopes" allReqd)

/-- DefaultAuthorization from default_authorization.go, with the
context's required scopes passed explicitly; none is a nil error. -/
def DefaultAuthorization (reqd : List GoString) (c : Claims) : Option PipelineError :=
  checkScopes reqd (Claims.Strings c ScopesClaim) reqd

/-- strings.SplitN(header, " ", 2) viewed as an optional split at the
first space: none when the header has no space. -/
def splitFirst : List Char → Option (List Char × List Char)
  | [] => none
  | c :: rest =>
      if c = ' ' then some ([], rest)
      else match splitFirst rest with
           | none => none
           | some (pre, post) => some (c :: pre, post)

/-- extractToken from internals.go: the whole header when it contains no
space, otherwise the text after the first space. -/
def extractToken (header : List Char) : List Char :=
  match splitFirst header with
  | none => header
  | some (_, post) => post

/-- The claims representations the pipeline can receive from the JWT
codec: jwt.StandardClaims (by pointer), jwt.MapClaims, or any other
jwt.Claims implementation carried with its type name. -/
inductive TokenClaims where
  | standard (aud id iss sub : GoString) (iat nbf exp : Int)
  | mapClaims (m : Claims)
  | otherClaims (typ : GoString)

/-- A parsed *jwt.Token, keeping the field the middleware reads. -/
structure JwtToken where
  claims : TokenClaims

/-- identifyIssuer from internals.go.  A nil token or nil claims is the
empty issuer; StandardClaims yields its Issuer field; in MapClaims a nil
"iss" is the empty issuer and the inner type switch only recognizes
string and fmt.Stringer, leaving the issuer "" for any other value; any
other claims type is an unsupported error. -/
def identifyIssuer (tokenClaims : Option TokenClaims) : Except PipelineError GoString :=
  match tokenClaims with
  | none => .ok ""
  | some (.standard _ _ iss _ _ _ _) => .ok iss
  | some (.mapClaims m) =>
      match mapLookup m "iss" with
      | none => .ok ""
      | some .vNull => .ok ""
      | some (.vStr s) => .ok s
      | some (.vStringer s) => .ok s
      | some _ => .ok ""
  | some (.otherClaims typ) => .error (.unsupported "unsupported jwt.Claims" typ)

/-- parseToken from internals.go, with the external JWT codec (jwt.Parse
applied to the key-resolution callback) abstracted as a function from
token text to a parsed token or an error message: an empty extracted
token is no token and no error, and a codec failure is wrapped as an
invalid-token error carrying the token text. -/
def parseToken (codec : List Char → Except GoString JwtToken)
    (header : List Char) : Except PipelineError (Option JwtToken) :=
  let tok := extractToken header
  if tok = [] then .ok none
  else
    match codec tok with
    | .ok t => .ok (some t)
    | .error msg => .error (.invalidToken msg (String.mk tok))

/-- The claims-materialization step of the middleware closure in new.go:
no token gives empty Claims, StandardClaims is copied field by field,
MapClaims is taken as-is, and any other representation is an
invalid-token error naming the type. -/
def materializeClaims : TokenClaims → Except PipelineError Claims
  | .standard aud id iss sub iat nbf exp =>
      .ok [("aud", .vStr aud), ("id", .vStr id), ("iss", .vStr iss),
           ("sub", .vStr sub), ("iat", .vInt64 iat), ("nbf", .vInt64 nbf),
           ("exp", .vInt64 exp)]
  | .mapClaims m => .ok m
  | .otherClaims typ => .error (.invalidToken "unsupported jwt.Claims" typ)

/-- The verification pipeline of the middleware closure in new.go up to
the point where Claims are handed to the authorization stage: parse the
carrier, then materialize the claims bag. -/
def middlewarePipeline (codec : List Char → Except GoString JwtToken)
    (header : List Char) : Except PipelineError Claims :=
  match parseToken codec header with
  | .error e => .error e
  | .ok none => .ok []
  | .ok (some t) => materializeClaims t.claims

theorem mapLookup_mapInsert_self (m : List (GoString × α)) (k : GoString) (v : α) :
    mapLookup (mapInsert m k v) k = some v := by
  induction m with
  | nil => simp [mapInsert, mapLookup]
  | cons p rest ih =>
      obtain ⟨k', v'⟩ := p
      by_cases h : k' = k <;> simp [mapInsert, mapLookup, h, ih]

theorem mapInsert_mapInsert_self (m : List (GoString × α)) (k : GoString) (v : α) :
    mapInsert (mapInsert m k v) k v = mapInsert m k v := by
  induction m with
  | nil => simp [mapInsert]
  | cons p rest ih =>
      obtain ⟨k', v'⟩ := p
      by_cases h : k' = k <;> simp [mapInsert, h, ih]

theorem mapLookup_mapDelete_self (m : List (GoString × α)) (k : GoString) :
    mapLookup (mapDelete m k) k = none := by
  induction m with
  | nil => simp [mapDelete, mapLookup]
  | cons p rest ih =>
      obtain ⟨k', v'⟩ := p
      by_cases h : k' = k <;> simp [mapDelete, mapLookup, h, ih]

theorem mem_mapInsert (m : List (GoString × α)) (k : GoString) (v : α) :
    ∀ p ∈ mapInsert m k v, p = (k, v) ∨ p ∈ m := by
  induction m with
  | nil => simp [mapInsert]
  | cons q rest ih =>
      obtain ⟨k', v'⟩ := q
      intro p hp
      by_cases h : k' = k
      · simp [mapInsert, h] at hp
        rcases hp with hp | hp
        · exact Or.inl hp
        · exact Or.inr (List.mem_cons_of_mem _ hp)
      · simp [mapInsert, h] at hp
        rcases hp with hp | hp
        · exact Or.inr (by simp [hp])
        · rcases ih p hp with h1 | h1
          · exact Or.inl h1
          · exact Or.inr (List.mem_cons_of_mem _ h1)

theorem mem_mapDelete (m : List (GoString × α)) (k : GoString) :
    ∀ p ∈ mapDelete m k, p ∈ m := by
  induction m with
  | nil => simp [mapDelete]
  | cons q rest ih =>
      obtain ⟨k', v'⟩ := q
      intro p hp
      by_cases h : k' = k
      · simp [mapDelete, h] at hp
        exact List.mem_cons_of_mem _ (ih p hp)
      · simp [mapDelete, h] at hp
        rcases hp with hp | hp
        · simp [hp]
        · exact List.mem_cons_of_mem _ (ih p hp)

theorem mapLookup_mem (m : List (GoString × α)) (k : GoString) (v : α)
    (h : mapLookup m k = some v) : (k, v) ∈ m := by
  induction m with
  | nil => simp [mapLookup] at h
  | cons q rest ih =>
      obtain ⟨k', v'⟩ := q
      by_cases hk : k' = k
      · simp [mapLookup, hk] at h
        simp [hk, h]
      · simp [mapLookup, hk] at h
        exact List.mem_cons_of_mem _ (ih h)

theorem normalizeKey_idem (k : KeyArg) :
    normalizeKey (normalizeKey k) = normalizeKey k := by
  cases k <;> rfl

theorem trustStore_ok_elim {nk nk2 : NamedKeystore} {i : GoString} {k : KeyArg}
    (h : trustStore nk i k = .ok nk2) :
    isVerificationKey (normalizeKey k) = true ∧
      nk2 = ⟨mapInsert nk.keys i (normalizeKey k)⟩ := by
  unfold trustStore at h
  split at h
  · next hv => exact ⟨hv, by injection h with h2; exact h2.symm⟩
  · cases h

theorem trustStore_ok_intro {nk : NamedKeystore} {i : GoString} {k : KeyArg}
    (hv : isVerificationKey (normalizeKey k) = true) :
    trustStore nk i k = .ok ⟨mapInsert nk.keys i (normalizeKey k)⟩ := by
  unfold trustStore
  simp [hv]

theorem trust_ok_elim {nk nk2 : NamedKeystore} {i : GoString} {k : KeyArg}
    (h : NamedKeystore.Trust nk i k = .ok nk2) :
    isVerificationKey (normalizeKey k) = true ∧
      nk2 = ⟨mapInsert nk.keys i (normalizeKey k)⟩ := by
  unfold NamedKeystore.Trust at h
  split at h
  · split at h
    · exact trustStore_ok_elim h
    · cases h
  · exact trustStore_ok_elim h

theorem trust_ok_of_absent {nk : NamedKeystore} {i : GoString} {k : KeyArg}
    (hl : mapLookup nk.keys i = none)
    (hv : isVerificationKey (normalizeKey k) = true) :
    NamedKeystore.Trust nk i k = .ok ⟨mapInsert nk.keys i (normalizeKey k)⟩ := by
  unfold NamedKeystore.Trust
  rw [hl]
  exact trustStore_ok_intro hv

theorem trust_ok_of_same {nk : NamedKeystore} {i : GoString} {k : KeyArg}
    (hl : mapLookup nk.keys i = some k)
    (hv : isVerificationKey (normalizeKey k) = true) :
    NamedKeystore.Trust nk i k = .ok ⟨mapInsert nk.keys i (normalizeKey k)⟩ := by
  unfold NamedKeystore.Trust
  rw [hl]
  simp [trustStore_ok_intro hv]

theorem trust_conflict {nk : NamedKeystore} {i : GoString} {k old : KeyArg}
    (hl : mapLookup nk.keys i = some old) (hne : old ≠ k) :
    NamedKeystore.Trust nk i k
      = .error "Already added a key for issuer; call RemoveKey first" := by
  unfold NamedKeystore.Trust
  rw [hl]
  simp [hne]

theorem keystoreInv_trust {nk nk2 : NamedKeystore} {i : GoString} {k : KeyArg}
    (h : KeystoreInv nk) (ht : NamedKeystore.Trust nk i k = .ok nk2) :
    KeystoreInv nk2 := by
  obtain ⟨hv, rfl⟩ := trust_ok_elim ht
  intro p hp
  rcases mem_mapInsert _ _ _ p hp with h1 | h1
  · rw [h1]; exact hv
  · exact h p h1

theorem reachable_inv {nk : NamedKeystore} (h : Reachable nk) : KeystoreInv nk := by
  induction h with
  | zero => intro p hp; exact absurd hp (List.not_mem_nil p)
  | trustOk _ ht ih => exact keystoreInv_trust ih ht
  | revoke _ ih => intro p hp; exact ih p (mem_mapDelete _ _ p hp)

theorem checkScopes_none_iff (reqd held allReqd : List GoString) :
    checkScopes reqd held allReqd = none ↔ ∀ r ∈ reqd, r ∈ held := by
  induction reqd with
  | nil => simp [checkScopes]
  | cons r rest ih =>
      by_cases h : held.any (fun x => x == r)
      · have hr : r ∈ held := by
          rcases List.any_eq_true.mp h with ⟨x, hx, hbeq⟩
          rw [beq_iff_eq] at hbeq
          exact hbeq ▸ hx
        simp [checkScopes, h, ih, List.forall_mem_cons, hr]
      · have hr : r ∉ held := by
          intro hmem
          exact h (List.any_eq_true.mpr ⟨r, hmem, by simp⟩)
        have h' : held.any (fun x => x == r) = false := by
          rw [Bool.eq_false_iff]; exact h
        simp [checkScopes, h', List.forall_mem_cons, hr]

theorem checkScopes_some {reqd held allReqd : List GoString} {e : PipelineError}
    (h : checkScopes reqd held allReqd = some e) :
    e = .authorizationFailed "missing scopes" allReqd := by
  induction reqd with
  | nil => simp [checkScopes] at h
  | cons r rest ih =>
      unfold checkScopes at h
      split at h
      · exact ih h
      · injection h with h2; exact h2.symm

theorem splitFirst_eq_none {s : List Char} (h : ' ' ∉ s) : splitFirst s = none := by
  induction s with
  | nil => rfl
  | cons c rest ih =>
      have hc : ¬(c = ' ') := fun hc => h (hc ▸ List.mem_cons_self c rest)
      have hr : ' ' ∉ rest := fun hm => h (List.mem_cons_of_mem c hm)
      simp [splitFirst, hc, ih hr]

theorem splitFirst_append {pre : List Char} (post : List Char) (h : ' ' ∉ pre) :
    splitFirst (pre ++ ' ' :: post) = some (pre, post) := by
  induction pre with
  | nil => simp [splitFirst]
  | cons c rest ih =>
      have hc : ¬(c = ' ') := fun hc => h (hc ▸ List.mem_cons_self c rest)
      have hr : ' ' ∉ rest := fun hm => h (List.mem_cons_of_mem c hm)
      simp [splitFirst, hc, ih hr]

/-- C1: each standard accessor must read its own named claim, so the
three time accessors must not collapse onto one name.  Evaluating the
code at a bag whose "iat", "nbf" and "exp" claims hold the distinct
epochs 0, 5 and 100 shows that IssuedAt, NotBefore and ExpiresAt all
return the "iat" instant 0, although the bag really carries 5 under
"nbf" and 100 under "exp"; Issuer and Subject do read their own names. -/
theorem claim_C1_time_accessors_collapsed :
    Claims.Issuer timeBagExample = "alice"
    ∧ Claims.Subject timeBagExample = "bob"
    ∧ Claims.IssuedAt timeBagExample = 0
    ∧ Claims.NotBefore timeBagExample = 0
    ∧ Claims.ExpiresAt timeBagExample = 0
    ∧ Claims.Int timeBagExample "nbf" = 5
    ∧ Claims.Int timeBagExample "exp" = 100 := by
  decide

/-- C3: a numeric claim of any width was claimed to truncate to int64,
but in the code only the float32 case of the type switch has a body; an
int64 or float64 value falls out of the switch and yields 0, while a
textual value is parsed base 10 with 0 on failure and a float32 value is
truncated. -/
theorem claim_C3_int_numeric_cases_dead :
    Claims.Int [("foo", GoValue.vInt64 42)] "foo" = 0
    ∧ Claims.Int [("foo", GoValue.vFloat64 42 "42")] "foo" = 0
    ∧ Claims.Int [("foo", GoValue.vUInt64 42)] "foo" = 0
    ∧ Claims.Int [("foo", GoValue.vFloat32 42 "42")] "foo" = 42
    ∧ Claims.Int [("foo", GoValue.vStr "42")] "foo" = 42
    ∧ Claims.Int [("foo", GoValue.vStr "4x2")] "foo" = 0
    ∧ Claims.Int [] "foo" = 0 := by
  decide

/-- C4: any nonzero numeric value was claimed to be true, but in the
code only the float32 case of the type switch has a body; a nonzero
int64 or float64 value falls out of the switch and yields false, while
booleans pass through and strings are matched against the trueBool
pattern. -/
theorem claim_C4_bool_numeric_cases_dead :
    Claims.Bool [("foo", GoValue.vInt64 1)] "foo" = false
    ∧ Claims.Bool [("foo", GoValue.vFloat64 1 "1")] "foo" = false
    ∧ Claims.Bool [("foo", GoValue.vFloat32 1 "1")] "foo" = true
    ∧ Claims.Bool [("foo", GoValue.vBool true)] "foo" = true
    ∧ Claims.Bool [("foo", GoValue.vStr "True")] "foo" = true
    ∧ Claims.Bool [("foo", GoValue.vStr "10")] "foo" = true
    ∧ Claims.Bool [("foo", GoValue.vStr "5")] "foo" = false
    ∧ Claims.Bool [("foo", GoValue.vStr "Fal")] "foo" = false := by
  decide

/-- C5: the default authorization evaluator passes exactly when every
required scope appears verbatim in the scopes extracted from the
configured scopes claim via Claims.Strings; an empty required list
always passes, and a failure is an authorization-failed error that
reports the required scopes. -/
theorem claim_C5_default_authorization (c : Claims) (reqd : List GoString) :
    (DefaultAuthorization reqd c = none ↔
      ∀ r ∈ reqd, r ∈ Claims.Strings c ScopesClaim)
    ∧ DefaultAuthorization [] c = none
    ∧ (∀ e, DefaultAuthorization reqd c = some e →
        e = .authorizationFailed "missing scopes" reqd) := by
  exact ⟨checkScopes_none_iff _ _ _, rfl, fun _ h => checkScopes_some h⟩

/-- C5 witness: a bag holding scopes read and write authorizes a request
requiring read. -/
theorem claim_C5_witness :
    DefaultAuthorization ["read"]
      [(ScopesClaim, GoValue.vStrList ["read", "write"])] = none :=
  (claim_C5_default_authorization
    [(ScopesClaim, GoValue.vStrList ["read", "write"])] ["read"]).1.mpr (by decide)

/-- C2 counterexample: Trust compares an existing entry against the raw
argument before normalization, so after a first Trust with a string key
succeeds and stores its byte encoding, the identical second Trust call
is rejected as a conflict instead of succeeding idempotently. -/
theorem claim_C2_counterexample :
    NamedKeystore.Trust ⟨[]⟩ "alice" (KeyArg.str "squeamish")
      = .ok ⟨[("alice", KeyArg.bytes (goBytes "squeamish"))]⟩
    ∧ NamedKeystore.Trust ⟨[("alice", KeyArg.bytes (goBytes "squeamish"))]⟩
        "alice" (KeyArg.str "squeamish")
      = .error "Already added a key for issuer; call RemoveKey first" :=
  ⟨rfl, rfl⟩

/-- C2 amended: after Trust(i, k) succeeds, Get(i) returns the
normalized form of k (string to bytes, private key to public key), and a
second identical Trust(i, k) succeeds without changing the store
whenever k is already in normalized form; for a string or private-key
argument the second call instead fails with the trust-conflict error,
because the stored normalized key is compared against the raw argument. -/
theorem claim_C2_trust_get_idempotent (nk nk2 : NamedKeystore) (i : GoString)
    (k : KeyArg) (h : NamedKeystore.Trust nk i k = .ok nk2) :
    NamedKeystore.Get nk2 i = some (normalizeKey k)
    ∧ (normalizeKey k = k → NamedKeystore.Trust nk2 i k = .ok nk2) := by
  obtain ⟨hv, rfl⟩ := trust_ok_elim h
  constructor
  · exact mapLookup_mapInsert_self _ _ _
  · intro hfix
    have hl : mapLookup (mapInsert nk.keys i (normalizeKey k)) i = some k := by
      rw [mapLookup_mapInsert_self, hfix]
    have h2 := @trust_ok_of_same ⟨mapInsert nk.keys i (normalizeKey k)⟩ i k hl hv
    simpa [mapInsert_mapInsert_self] using h2

/-- C2 witness: a byte-secret key is already normalized, so re-trusting
it succeeds and leaves the store unchanged. -/
theorem claim_C2_witness :
    NamedKeystore.Get ⟨[("a", KeyArg.bytes [1])]⟩ "a"
      = some (normalizeKey (KeyArg.bytes [1]))
    ∧ (normalizeKey (KeyArg.bytes [1]) = KeyArg.bytes [1] →
        NamedKeystore.Trust ⟨[("a", KeyArg.bytes [1])]⟩ "a" (KeyArg.bytes [1])
          = .ok ⟨[("a", KeyArg.bytes [1])]⟩) :=
  claim_C2_trust_get_idempotent ⟨[]⟩ ⟨[("a", KeyArg.bytes [1])]⟩ "a"
    (KeyArg.bytes [1]) rfl

/-- C6: after Trust(i, k1) succeeds, trusting a key that normalizes
differently fails with an error and leaves Get(i) at the key stored for
k1, and after RevokeTrust(i) the same key is accepted. -/
theorem claim_C6_trust_conflict_revoke (nk nk1 : NamedKeystore) (i : GoString)
    (k1 k2 : KeyArg) (h1 : NamedKeystore.Trust nk i k1 = .ok nk1)
    (hne : normalizeKey k1 ≠ normalizeKey k2)
    (hk2 : isVerificationKey (normalizeKey k2) = true) :
    (∃ e, NamedKeystore.Trust nk1 i k2 = .error e)
    ∧ NamedKeystore.Get nk1 i = some (normalizeKey k1)
    ∧ (∃ nk3, NamedKeystore.Trust (NamedKeystore.RevokeTrust nk1 i) i k2
        = .ok nk3) := by
  obtain ⟨hv1, rfl⟩ := trust_ok_elim h1
  have hget : mapLookup (mapInsert nk.keys i (normalizeKey k1)) i
      = some (normalizeKey k1) := mapLookup_mapInsert_self _ _ _
  refine ⟨?_, hget, ?_⟩
  · have hne2 : normalizeKey k1 ≠ k2 := by
      intro hEq
      apply hne
      rw [← normalizeKey_idem k1, hEq]
    exact ⟨_, trust_conflict hget hne2⟩
  · have hl : mapLookup (mapDelete (mapInsert nk.keys i (normalizeKey k1)) i) i
        = none := mapLookup_mapDelete_self _ _
    exact ⟨_, trust_ok_of_absent hl hk2⟩

/-- C6 witness: two distinct byte secrets under one issuer. -/
theorem claim_C6_witness :
    (∃ e, NamedKeystore.Trust ⟨[("a", KeyArg.bytes [1])]⟩ "a" (KeyArg.bytes [2])
      = .error e)
    ∧ NamedKeystore.Get ⟨[("a", KeyArg.bytes [1])]⟩ "a"
        = some (normalizeKey (KeyArg.bytes [1]))
    ∧ (∃ nk3, NamedKeystore.Trust
        (NamedKeystore.RevokeTrust ⟨[("a", KeyArg.bytes [1])]⟩ "a") "a"
        (KeyArg.bytes [2]) = .ok nk3) :=
  claim_C6_trust_conflict_revoke ⟨[]⟩ ⟨[("a", KeyArg.bytes [1])]⟩ "a"
    (KeyArg.bytes [1]) (KeyArg.bytes [2]) rfl (by decide) rfl

/-- C7: the extracted token is the whole carrier when it contains no
space and the text after the first space otherwise, and the empty
carrier makes the pipeline succeed with empty Claims for any codec. -/
theorem claim_C7_extract_and_empty_carrier (s pre post : List Char)
    (codec : List Char → Except GoString JwtToken) :
    (' ' ∉ s → extractToken s = s)
    ∧ (' ' ∉ pre → extractToken (pre ++ ' ' :: post) = post)
    ∧ middlewarePipeline codec [] = .ok [] := by
  refine ⟨fun h => ?_, fun h => ?_, rfl⟩
  · unfold extractToken
    rw [splitFirst_eq_none h]
  · unfold extractToken
    rw [splitFirst_append post h]

/-- C7 witness: a spaceless carrier is taken whole, a Bearer-prefixed
carrier loses its prefix, and the empty carrier succeeds with empty
Claims under a codec that rejects everything. -/
theorem claim_C7_witness :
    extractToken "abc".data = "abc".data
    ∧ extractToken ("Bearer".data ++ ' ' :: "tok".data) = "tok".data
    ∧ middlewarePipeline (fun _ => Except.error "nope") [] = .ok [] :=
  ⟨(claim_C7_extract_and_empty_carrier "abc".data "Bearer".data "tok".data
      (fun _ => Except.error "nope")).1 (by decide),
   (claim_C7_extract_and_empty_carrier "abc".data "Bearer".data "tok".data
      (fun _ => Except.error "nope")).2.1 (by decide),
   (claim_C7_extract_and_empty_carrier "abc".data "Bearer".data "tok".data
      (fun _ => Except.error "nope")).2.2⟩

/-- C8: a textual "iss" is used as-is, a missing issuer claim or nil
token resolves to the empty issuer, and an unrecognized representation
is an unsupported error; but the claimed coercion via the Claims.String
rule fails on the code: the inner type switch recognizes only string and
fmt.Stringer, so an integer issuer yields "" while Claims.String yields
"42" (which is what the accompanying test expects). -/
theorem claim_C8_issuer_coercion_divergence :
    identifyIssuer (some (.mapClaims [("iss", GoValue.vInt 42)])) = .ok ""
    ∧ Claims.String [("iss", GoValue.vInt 42)] "iss" = "42"
    ∧ identifyIssuer (some (.mapClaims [("iss", GoValue.vStr "alice")])) = .ok "alice"
    ∧ identifyIssuer (some (.mapClaims [("iss", GoValue.vStringer "acme")])) = .ok "acme"
    ∧ identifyIssuer (some (.mapClaims [])) = .ok ""
    ∧ identifyIssuer none = .ok ""
    ∧ identifyIssuer (some (.otherClaims "bogusClaims"))
        = .error (.unsupported "unsupported jwt.Claims" "bogusClaims") :=
  ⟨rfl, rfl, rfl, rfl, rfl, rfl, rfl⟩

/-- C9: in every keystore state reachable from the zero value, every key
Get can return is a byte secret or an RSA/ECDSA public key; an
unsupported key type is always rejected with an error, so it is never
stored; and a successful Trust of a string or a private key stores its
byte encoding or public half. -/
theorem claim_C9_verification_keys_only (nk : NamedKeystore)
    (h : Reachable nk) :
    (∀ i k, NamedKeystore.Get nk i = some k → isVerificationKey k = true)
    ∧ (∀ i t, ∃ e, NamedKeystore.Trust nk i (KeyArg.otherKey t) = .error e)
    ∧ (∀ i s nk2, NamedKeystore.Trust nk i (KeyArg.str s) = .ok nk2 →
        NamedKeystore.Get nk2 i = some (KeyArg.bytes (goBytes s)))
    ∧ (∀ i k nk2, NamedKeystore.Trust nk i (KeyArg.rsaPriv k) = .ok nk2 →
        NamedKeystore.Get nk2 i = some (KeyArg.rsaPub k.publicKey))
    ∧ (∀ i k nk2, NamedKeystore.Trust nk i (KeyArg.ecdsaPriv k) = .ok nk2 →
        NamedKeystore.Get nk2 i = some (KeyArg.ecdsaPub k.publicKey)) := by
  have hinv := reachable_inv h
  refine ⟨?_, ?_, ?_, ?_, ?_⟩
  · intro i k hget
    exact hinv (i, k) (mapLookup_mem _ _ _ hget)
  · intro i t
    cases hl : mapLookup nk.keys i with
    | some old =>
        have hvk := hinv (i, old) (mapLookup_mem _ _ _ hl)
        have hne : old ≠ KeyArg.otherKey t := by
          intro hEq
          rw [hEq] at hvk
          simp [isVerificationKey] at hvk
        exact ⟨_, trust_conflict hl hne⟩
    | none =>
        refine ⟨"Unsupported key type", ?_⟩
        unfold NamedKeystore.Trust
        rw [hl]
        rfl
  · intro i s nk2 ht
    obtain ⟨_, rfl⟩ := trust_ok_elim ht
    exact mapLookup_mapInsert_self _ _ _
  · intro i k nk2 ht
    obtain ⟨_, rfl⟩ := trust_ok_elim ht
    exact mapLookup_mapInsert_self _ _ _
  · intro i k nk2 ht
    obtain ⟨_, rfl⟩ := trust_ok_elim ht
    exact mapLookup_mapInsert_self _ _ _

/-- C9 witness: the state reached by trusting one byte secret is
reachable, and the key Get returns there is a verification key. -/
theorem claim_C9_witness : isVerificationKey (KeyArg.bytes [1]) = true :=
  (claim_C9_verification_keys_only ⟨[("a", KeyArg.bytes [1])]⟩
    (Reachable.trustOk Reachable.zero
      (rfl : NamedKeystore.Trust ⟨[]⟩ "a" (KeyArg.bytes [1])
        = .ok ⟨[("a", KeyArg.bytes [1])]⟩))).1 "a" (KeyArg.bytes [1]) rfl

/-- C10: every non-empty carrier whose content after the first space is
empty — any one-word scheme prefix followed by a space and nothing else,
such as a bare Bearer prefix — is treated exactly like an absent token:
the carrier is non-empty, the extracted token is empty, and the pipeline
succeeds with empty Claims for any codec. -/
theorem claim_C10_blank_after_scheme (pre : List Char)
    (codec : List Char → Except GoString JwtToken) (hpre : ' ' ∉ pre) :
    pre ++ [' '] ≠ []
    ∧ extractToken (pre ++ [' ']) = []
    ∧ middlewarePipeline codec (pre ++ [' ']) = .ok [] := by
  have he : extractToken (pre ++ [' ']) = [] := by
    unfold extractToken
    rw [splitFirst_append [] hpre]
  refine ⟨by simp, he, ?_⟩
  simp [middlewarePipeline, parseToken, he]

/-- C10 witness: the bare Bearer prefix under a rejecting codec. -/
theorem claim_C10_witness :
    "Bearer".data ++ [' '] ≠ []
    ∧ extractToken ("Bearer".data ++ [' ']) = []
    ∧ middlewarePipeline (fun _ => Except.error "nope") ("Bearer".data ++ [' '])
        = .ok [] :=
  claim_C10_blank_after_scheme "Bearer".data (fun _ => Except.error "nope") (by decide)
